import Mathlib

/-
  Verification development for the vector scene editor of this repository.

  The editing engine lives in src/App.tsx; the generation retry wrapper lives
  in the service module.  Each definition below is a shallow embedding of one
  function of the source, translated as directly as the DOM permits:

  - DOM child lists become Lean lists of node identifiers; insertBefore,
    appendChild (remove then append) and remove become explicit list edits.
  - getAttribute / setAttribute state is carried in structures whose fields
    are the attributes the engine reads and writes.
  - Numbers produced by getBBox are rationals; parseInt results are integers.
  - Math.random based id suffixes become an explicit supply of fresh strings
    passed to the operation, so nondeterminism is visible as a parameter.
  - Math.cos and Math.sin are transcendental, so the gradient operation takes
    the cosine and sine of the angle as rational parameters; theorems that
    speak about a concrete angle relate those parameters to Real.cos and
    Real.sin of that angle.
-/

namespace VectorStudio

/-! ### Generic DOM list edits -/

/-- DOM parent.insertBefore(newNode, target): insert newNode immediately
before the first occurrence of target in the child list.  The engine only
calls it with a target that is present. -/
def insertBefore (xs : List Nat) (target newNode : Nat) : List Nat :=
  match xs with
  | [] => []
  | x :: rest =>
      if x = target then newNode :: x :: rest
      else x :: insertBefore rest target newNode

/-! ### Grouping engine (src/App.tsx, createAutoLayoutGroup and ungroup)

The selected elements are siblings; the shared parent child list is a list of
node identifiers.  The tag of a node and the child list of a container node
are carried as functions of the identifier.  The transform attribute written
by runAutoLayout is modelled separately by the layout model below, because
the round-trip claim explicitly exempts transforms. -/

structure GDoc where
  siblings : List Nat
  content : Nat → List Nat
  tag : Nat → String
  selection : List Nat

/-- createAutoLayoutGroup from src/App.tsx: guard on fewer than two selected
elements, create a fresh container g node, insert it before the first
selected element, move every selected element into it (appendChild removes
the node from the parent list), select the container. -/
def createAutoLayoutGroup (gid : Nat) (d : GDoc) : GDoc :=
  if d.selection.length < 2 then d
  else
    match d.selection with
    | [] => d
    | s1 :: _ =>
        { siblings := d.selection.foldl (fun acc el => acc.erase el)
            (insertBefore d.siblings s1 gid)
          content := fun n => if n = gid then d.selection else d.content n
          tag := fun n => if n = gid then "g" else d.tag n
          selection := [gid] }

/-- ungroup from src/App.tsx: guard unless the selection is exactly one node
with tag g; move each child of the container back before the container in
the parent child list, remove the container, select the children. -/
def ungroup (d : GDoc) : GDoc :=
  match d.selection with
  | [g] =>
      if d.tag g = "g" then
        let ch := d.content g
        { siblings := (ch.foldl (fun acc c => insertBefore acc g c) d.siblings).erase g
          content := fun n => if n = g then [] else d.content n
          tag := d.tag
          selection := ch }
      else d
  | _ => d

/-! ### Selection controller (src/App.tsx, handleCanvasMouseDown)

Only the selection update for a click that hit an eligible node is modelled;
eligibility (closest path, rect, circle, ellipse, text or g ancestor, tag not
svg) is the hypothesis of the claims that use this function. -/

/-- Selection update of handleCanvasMouseDown: with shift, toggle membership
(filter out when present, push when absent); without shift, replace the
selection with the clicked node. -/
def selectAt (selection : List Nat) (node : Nat) (shift : Bool) : List Nat :=
  if shift then
    if node ∈ selection then selection.filter (fun item => item ≠ node)
    else selection ++ [node]
  else [node]

/-! ### JavaScript string and number helpers -/

/-- JavaScript a-or-b on an optional string: null and the empty string are
falsy, so they fall through to the alternative. -/
def jsOr (a : Option String) (b : String) : String :=
  match a with
  | some s => if s = "" then b else s
  | none => b

/-- Truthiness of an optional string attribute: present and nonempty. -/
def truthy (o : Option String) : Bool :=
  match o with
  | some s => decide (s ≠ "")
  | none => false

/-- Value of a nonempty run of decimal digits, none when the run is empty. -/
def digitsVal (cs : List Char) : Option Nat :=
  let ds := cs.takeWhile Char.isDigit
  if ds = [] then none
  else some (ds.foldl (fun acc ch => acc * 10 + (ch.toNat - Char.toNat '0')) 0)

/-- JavaScript parseInt on the strings this engine produces: optional
leading spaces and sign, then a digit run; none models NaN. -/
def parseIntJS (s : String) : Option Int :=
  match s.data.dropWhile (fun ch => ch = ' ') with
  | '-' :: rest => (digitsVal rest).map (fun n => -(n : Int))
  | '+' :: rest => (digitsVal rest).map (fun n => (n : Int))
  | other => (digitsVal other).map (fun n => (n : Int))

/-- Math.round: round half toward positive infinity. -/
def jsRound (q : ℚ) : Int := ⌊q + 1/2⌋

/-- Percentage attribute text written by the gradient geometry code,
round the rational and append a percent sign. -/
def pct (q : ℚ) : String := toString (jsRound q) ++ "%"

/-- Check whether the second character list occurs contiguously inside the
first one. -/
def containsSub (s sub : List Char) : Bool :=
  match s with
  | [] => sub.isEmpty
  | _ :: rest => sub.isPrefixOf s || containsSub rest sub

/-- JavaScript String.prototype.includes. -/
def jsIncludes (s sub : String) : Bool := containsSub s.data sub.data

/-- JavaScript String.prototype.startsWith, on the character sequence. -/
def jsStartsWith (s pre : String) : Bool := pre.data.isPrefixOf s.data

/-- fill.slice(5, -1): the paint-server id between the url reference
delimiters, dropping the five lead characters and the closing one. -/
def gradIdOf (f : String) : String := String.mk ((f.data.drop 5).dropLast)

/-! ### Auto layout (src/App.tsx, runAutoLayout)

A child carries the data the loop reads and writes: its tag, the result of
getBBox (none when getBBox throws on degenerate geometry) as a rational
width and height pair, and its current translation transform.  The gap and
padding arguments stand for the parseInt results of the data-gap and
data-padding attributes. -/

structure LChild where
  tag : String
  box : Option (ℚ × ℚ)
  transform : Option (ℚ × ℚ)
deriving DecidableEq, Repr

/-- Body of the runAutoLayout loop: children with tag title or desc are
filtered out up front (their transforms stay and they do not advance the
offset), a child whose getBBox throws is skipped by the per-child catch,
every other child gets translate(offset, padding) in the horizontal
direction or translate(padding, offset) in the vertical one, and the offset
advances by the measured width resp. height plus the gap. -/
def layoutChildren (direction : String) (gap padding : ℚ) :
    List LChild → ℚ → List LChild
  | [], _ => []
  | c :: rest, offset =>
      if c.tag = "title" ∨ c.tag = "desc" then
        c :: layoutChildren direction gap padding rest offset
      else
        match c.box with
        | none => c :: layoutChildren direction gap padding rest offset
        | some (w, h) =>
            if direction = "horizontal" then
              { c with transform := some (offset, padding) } ::
                layoutChildren direction gap padding rest (offset + w + gap)
            else
              { c with transform := some (padding, offset) } ::
                layoutChildren direction gap padding rest (offset + h + gap)

/-- runAutoLayout from src/App.tsx: nothing happens unless the data-layout
attribute is exactly flex; the direction defaults to horizontal via the
JavaScript or; the running offset starts at the padding. -/
def runAutoLayout (dataLayout dataDirection : Option String) (gap padding : ℚ)
    (children : List LChild) : List LChild :=
  if dataLayout = some "flex" then
    layoutChildren (jsOr dataDirection "horizontal") gap padding children padding
  else children

/-- Horizontal component of the translation transform of a child, zero when
no transform is set. -/
def xOf (c : LChild) : ℚ := (c.transform.getD (0, 0)).1

/-- Measured width of a child, zero when getBBox throws. -/
def widthOf (c : LChild) : ℚ :=
  match c.box with
  | some p => p.1
  | none => 0

/-! ### Paint synthesizer (src/App.tsx, updateGradientProperty and the stop
operations)

A paint-server node carries its id, its tag and the attributes the engine
writes; its stop children are pairs of offset text and stop-color text.
A selected element carries the three attributes the engine reads and
writes: id, fill and data-orig-fill.  The document records the root child
list, in which the defs container is one child, plus the attribute state of
the selected elements in selection order. -/

structure Stop where
  offset : Int
  color : String
deriving DecidableEq, Repr

structure GradElem where
  gid : String
  tag : String
  x1 : Option String := none
  y1 : Option String := none
  x2 : Option String := none
  y2 : Option String := none
  cx : Option String := none
  cy : Option String := none
  r : Option String := none
  stops : List (String × String) := []
deriving DecidableEq, Repr

structure Elem where
  id : Option String
  fill : Option String
  origFill : Option String
deriving DecidableEq, Repr

inductive RootChild where
  | defsC (grads : List GradElem)
  | other (n : Nat)
deriving DecidableEq, Repr

structure Doc where
  rootChildren : List RootChild
  elems : List Elem
deriving DecidableEq, Repr

structure GProps where
  enabled : Bool
  type : String
  stops : List Stop
deriving DecidableEq, Repr

/-- defs.querySelector with an id selector: first paint-server node in the
defs child list whose id matches. -/
def findGrad (gradId : String) (defs : List GradElem) : Option GradElem :=
  defs.find? (fun g => g.gid = gradId)

/-- Replace the first node with the given id by the image of the update
function, leaving every other node and the order unchanged; this is how an
in-place mutation or replaceWith of the found node acts on the child list. -/
def updateFirst (gradId : String) (f : GradElem → GradElem) :
    List GradElem → List GradElem
  | [] => []
  | g :: rest =>
      if g.gid = gradId then f g :: rest
      else g :: updateFirst gradId f rest

/-- Tag chosen for the paint-server node from the descriptor type. -/
def desiredTag (ty : String) : String :=
  if ty = "linear" then "linearGradient" else "radialGradient"

/-- Geometry attributes written by updateGradientProperty: for a linear
descriptor the four endpoint percentages computed from the cosine and sine
of the angle, with y2 using the cosine exactly as the source does; for a
radial descriptor the fixed centered circle. -/
def setGeometry (ty : String) (c s : ℚ) (g : GradElem) : GradElem :=
  if ty = "linear" then
    { g with
      x1 := some (pct (50 - c * 50))
      y1 := some (pct (50 - s * 50))
      x2 := some (pct (50 + c * 50))
      y2 := some (pct (50 + c * 50)) }
  else
    { g with cx := some "50%", cy := some "50%", r := some "50%" }

/-- innerHTML clearing followed by one stop child per descriptor entry,
offset as a percentage and the stop color. -/
def setStops (stops : List Stop) (g : GradElem) : GradElem :=
  { g with stops := stops.map (fun st => (toString st.offset ++ "%", st.color)) }

/-- Fresh paint-server node as created by createElementNS plus the id
attribute; all other attributes are unset and there are no stop children. -/
def newGradElem (gradId tagName : String) : GradElem :=
  { gid := gradId, tag := tagName }

/-- Per-element paint-server synthesis: find the node at the id in defs; if
absent, create one and append it to defs; if present with the wrong tag,
replace it in place by a fresh node with the same id; then write the
geometry attributes and replace all stops. -/
def installGrad (props : GProps) (c s : ℚ) (gradId : String)
    (defs : List GradElem) : List GradElem :=
  let tagName := desiredTag props.type
  match findGrad gradId defs with
  | none =>
      defs ++ [setStops props.stops (setGeometry props.type c s (newGradElem gradId tagName))]
  | some g =>
      if g.tag.toLower ≠ tagName.toLower then
        updateFirst gradId
          (fun _ => setStops props.stops (setGeometry props.type c s (newGradElem gradId tagName)))
          defs
      else
        updateFirst gradId
          (fun g0 => setStops props.stops (setGeometry props.type c s g0)) defs

/-- Fill restored by the disabled branch: data-orig-fill, else the current
fill, else the neutral default, following the JavaScript or chain. -/
def restoreFill (el : Elem) : String :=
  jsOr el.origFill (jsOr el.fill "#cccccc")

/-- Original fill recorded by the enabled branch when none is recorded yet:
the current fill or the neutral default. -/
def fillOrDefault (el : Elem) : String := jsOr el.fill "#cccccc"

/-- Body of the forEach over the selected elements in
updateGradientProperty.  The accumulator threads the defs child list, the
remaining supply of random id suffixes, and the elements already processed.
Disabled descriptor: write the restored fill and continue; the recorded
original is not touched.  Enabled descriptor: record the original fill if
none is recorded, compute grad-id from the element id or consume one random
suffix, install the paint-server node, and bind the fill by reference. -/
def gradStep (props : GProps) (c s : ℚ)
    (acc : List GradElem × List String × List Elem) (el : Elem) :
    List GradElem × List String × List Elem :=
  let defs := acc.1
  let rands := acc.2.1
  let done := acc.2.2
  if props.enabled = false then
    (defs, rands, done ++ [{ el with fill := some (restoreFill el) }])
  else
    let el1 := if truthy el.origFill then el
               else { el with origFill := some (fillOrDefault el) }
    let useOwn := truthy el.id
    let gradId := if useOwn then "grad-" ++ el.id.getD ""
                  else "grad-" ++ rands.headD "r0"
    let rands1 := if useOwn then rands else rands.tail
    (installGrad props c s gradId defs, rands1,
      done ++ [{ el1 with fill := some ("url(#" ++ gradId ++ ")") }])

/-- rootSvg.querySelector of defs: content of the first defs child. -/
def getDefs : List RootChild → Option (List GradElem)
  | [] => none
  | .defsC gs :: _ => some gs
  | .other _ :: rest => getDefs rest

/-- Lazy defs creation: when no defs child exists, create an empty one and
prepend it to the root child list. -/
def ensureDefs (rc : List RootChild) : List RootChild :=
  match getDefs rc with
  | some _ => rc
  | none => .defsC [] :: rc

/-- Write back the defs content into the first defs child. -/
def setDefs (newGs : List GradElem) : List RootChild → List RootChild
  | [] => []
  | .defsC _ :: rest => .defsC newGs :: rest
  | .other n :: rest => .other n :: setDefs newGs rest

/-- updateGradientProperty from src/App.tsx, for a given descriptor state:
return unchanged on an empty selection, otherwise ensure the defs container
exists, run the per-element loop, and write the final defs content back.
The c and s arguments are the cosine and sine of the descriptor angle and
rands supplies the Math.random id suffixes. -/
def updateGradientProperty (doc : Doc) (props : GProps) (c s : ℚ)
    (rands : List String) : Doc :=
  if doc.elems.length = 0 then doc
  else
    let rc := ensureDefs doc.rootChildren
    let defs0 := (getDefs rc).getD []
    let res := doc.elems.foldl (gradStep props c s) (defs0, rands, [])
    { rootChildren := setDefs res.1 rc, elems := res.2.2 }

/-- removeGradientStop from src/App.tsx: silently rejected while the stop
list has at most two entries; otherwise the stop at the index is filtered
out and the gradient is re-synthesized with the updated descriptor. -/
def removeGradientStopOp (doc : Doc) (props : GProps) (c s : ℚ)
    (rands : List String) (index : Nat) : Doc × GProps :=
  if props.stops.length ≤ 2 then (doc, props)
  else
    let newStops := (props.stops.enum.filter (fun p => p.1 ≠ index)).map (fun p => p.2)
    let props1 := { props with stops := newStops }
    (updateGradientProperty doc props1 c s rands, props1)

/-! ### Gradient panel derivation (src/App.tsx, the selection change effect)

The function below is the gradient branch of the effect: given the previous
panel state, the fill attribute of the first selected element and the root
child list, produce the next panel state.  When the fill is a paint-server
reference that resolves, the panel reads back kind and stops and the angle
is reset to its constant; when the fill is not a reference, the panel is
disabled; when the reference does not resolve, the effect runs no update at
all, so the previous state is returned unchanged. -/

structure GradPanel where
  enabled : Bool
  type : String
  angle : Int
  stops : List Stop
deriving DecidableEq, Repr

/-- querySelector by id over the root: first paint-server node with the id
in any defs child.  Paint servers live in defs containers in this model. -/
def findGradInRoot (gradId : String) : List RootChild → Option GradElem
  | [] => none
  | .defsC gs :: rest =>
      match findGrad gradId gs with
      | some g => some g
      | none => findGradInRoot gradId rest
  | .other _ :: rest => findGradInRoot gradId rest

/-- Gradient branch of the selection change effect.  A non-numeric offset
attribute would be NaN in JavaScript; every offset this engine writes is
numeric, and no claim observes that corner, so the parse failure falls back
to zero here. -/
def deriveGradientPanel (prev : GradPanel) (fill : Option String)
    (rc : List RootChild) : GradPanel :=
  match fill with
  | some f =>
      if f ≠ "" ∧ jsStartsWith f "url(#" then
        let gradId := gradIdOf f
        match findGradInRoot gradId rc with
        | some g =>
            let stops := g.stops.map (fun p =>
              { offset := (parseIntJS (jsOr (some p.1) "0")).getD 0
                color := jsOr (some p.2) "#000000" : Stop })
            { enabled := true
              type := if jsIncludes g.tag.toLower "linear" then "linear" else "radial"
              angle := 90
              stops := if stops.length > 0 then stops else prev.stops }
        | none => prev
      else { prev with enabled := false }
  | none => { prev with enabled := false }

/-! ### Generation retry wrapper (service module, withRetry)

An error value carries the signals the classifier reads: the status field
and whether the JSON text of the error contains 429, RESOURCE_EXHAUSTED or
the requested-entity-was-not-found message.  A generation call is a
sequence of attempt outcomes indexed by the attempt number.  The wrapper is
a loop over attempt indices zero through maxRetries; the list of sleep
delays taken before retries is returned alongside the outcome so that the
backoff is observable. -/

structure JsErr where
  status : Option Int
  strHas429 : Bool
  strHasRE : Bool
  strHasEntity : Bool
deriving DecidableEq, Repr

/-- Quota classification of withRetry: status 429, or 429 or
RESOURCE_EXHAUSTED in the serialized error. -/
def isQuotaError (e : JsErr) : Bool :=
  decide (e.status = some 429) || e.strHas429 || e.strHasRE

/-- Entity classification of withRetry: the serialized error contains the
requested-entity-was-not-found message. -/
def isEntityError (e : JsErr) : Bool := e.strHasEntity

inductive FailureClass where
  | sessionInvalid
  | quotaExceeded
  | unknown
deriving DecidableEq, Repr

/-- Classification order of the catch block: the entity check runs before
the quota check, so an error carrying both signals is session invalid. -/
def classify (e : JsErr) : FailureClass :=
  if isEntityError e then .sessionInvalid
  else if isQuotaError e then .quotaExceeded
  else .unknown

inductive Attempt where
  | ok (v : Nat)
  | fail (e : JsErr)
deriving DecidableEq, Repr

inductive Thrown where
  | entityNotFound
  | orig (e : JsErr)
  | retryLimit
deriving DecidableEq, Repr

inductive RetryOutcome where
  | ok (v : Nat)
  | thrown (t : Thrown)
deriving DecidableEq, Repr

/-- Loop body of withRetry: at attempt i, a success returns its value; a
failure throws ENTITY_NOT_FOUND at once when entity classified, sleeps the
current delay, doubles it and retries when quota classified and retries
remain, and otherwise rethrows the original error.  The fuel argument
counts the attempt indices still allowed and starts at maxRetries plus one,
so the fallthrough RETRY_LIMIT_REACHED is exactly the loop running out. -/
def withRetryGo (attempts : Nat → Attempt) (maxRetries : Nat) :
    Nat → Nat → Nat → List Nat → RetryOutcome × List Nat
  | 0, _, _, delays => (.thrown .retryLimit, delays)
  | fuel + 1, i, delay, delays =>
      match attempts i with
      | .ok v => (.ok v, delays)
      | .fail e =>
          if isEntityError e then (.thrown .entityNotFound, delays)
          else if isQuotaError e = true ∧ i < maxRetries then
            withRetryGo attempts maxRetries fuel (i + 1) (delay * 2) (delays ++ [delay])
          else (.thrown (.orig e), delays)

/-- withRetry from the service module: attempts start at index zero with a
two second delay and an empty delay log. -/
def withRetry (attempts : Nat → Attempt) (maxRetries : Nat) :
    RetryOutcome × List Nat :=
  withRetryGo attempts maxRetries (maxRetries + 1) 0 2000 []

/-! ### Concrete fixtures used by witnesses and counterexamples -/

/-- Three sibling rectangles with the first two selected, in document
order. -/
def gdocW : GDoc :=
  { siblings := [1, 2, 4], content := fun _ => [], tag := fun _ => "rect",
    selection := [1, 2] }

/-- Two sibling rectangles selected against document order: node 2 was
clicked first, node 1 shift-clicked second. -/
def gdocX : GDoc :=
  { siblings := [1, 2], content := fun _ => [], tag := fun _ => "rect",
    selection := [2, 1] }

/-- Document with a defs container, one element with a bare fill and one
element with a recorded original fill. -/
def docA : Doc :=
  { rootChildren := [.defsC []]
    elems := [{ id := none, fill := some "red", origFill := none },
              { id := none, fill := some "blue", origFill := some "#00ff00" }] }

/-- Document with no defs container and one selected element. -/
def docB : Doc :=
  { rootChildren := [.other 0]
    elems := [{ id := none, fill := some "red", origFill := none }] }

/-- Document with one selected element that has no id attribute. -/
def docC : Doc :=
  { rootChildren := [.defsC []]
    elems := [{ id := none, fill := some "#fff", origFill := none }] }

/-- Disabled gradient descriptor. -/
def propsOff : GProps := { enabled := false, type := "linear", stops := [] }

/-- Enabled linear gradient descriptor with the default two stops. -/
def propsOn : GProps :=
  { enabled := true, type := "linear"
    stops := [⟨0, "#6366f1"⟩, ⟨100, "#a855f7"⟩] }

/-- Two measurable rectangles of widths three and four. -/
def lchildren : List LChild :=
  [{ tag := "rect", box := some (3, 5), transform := none },
   { tag := "rect", box := some (4, 6), transform := none }]

/-- Two measurable rectangles of width zero. -/
def lzero : List LChild :=
  [{ tag := "rect", box := some (0, 0), transform := none },
   { tag := "rect", box := some (0, 0), transform := none }]

/-- Linear endpoint attributes in the form the claim states them: the four
percentages computed from the cosine and the sine of the angle, with y2
using the cosine. -/
def geomLinear (c s : ℚ) (g : GradElem) : Prop :=
  g.x1 = some (pct (50 - 50 * c)) ∧ g.y1 = some (pct (50 - 50 * s)) ∧
  g.x2 = some (pct (50 + 50 * c)) ∧ g.y2 = some (pct (50 + 50 * c))

/-- Invariant threaded through the per-element loop of the enabled linear
case: every processed element has its fill bound to a paint-server
reference that resolves in the current defs content to a node carrying the
linear endpoint attributes. -/
def GradInv (c s : ℚ) (defs : List GradElem) (els : List Elem) : Prop :=
  ∀ el ∈ els, ∃ gid g, el.fill = some ("url(#" ++ gid ++ ")") ∧
    findGrad gid defs = some g ∧ geomLinear c s g

/-- Document with one selected element that has the explicit id box. -/
def docD : Doc :=
  { rootChildren := []
    elems := [{ id := some "box", fill := some "#fff", origFill := none }] }

/-- Panel state left by an earlier interaction with the gradient enabled. -/
def panelE : GradPanel :=
  { enabled := true, type := "linear", angle := 90
    stops := [⟨0, "#6366f1"⟩, ⟨100, "#a855f7"⟩] }

/-- Error carrying only the 429 status signal. -/
def errQ : JsErr :=
  { status := some 429, strHas429 := false, strHasRE := false, strHasEntity := false }

/-- Error whose serialized text carries both a 429 signal and the
requested-entity-was-not-found message. -/
def errE : JsErr :=
  { status := none, strHas429 := true, strHasRE := false, strHasEntity := true }

/-! ## Theorems -/

/-! ### Grouping round trip (C1) -/

theorem insertBefore_split (A : List Nat) (t g : Nat) (B : List Nat) (h : t ∉ A) :
    insertBefore (A ++ t :: B) t g = A ++ g :: t :: B := by
  induction A with
  | nil => simp [insertBefore]
  | cons a A ih =>
      have ha : a ≠ t := fun e => h (e ▸ List.mem_cons_self a A)
      have hA : t ∉ A := fun hm => h (List.mem_cons_of_mem a hm)
      simp only [List.cons_append, insertBefore, if_neg ha, List.append_eq, ih hA]

theorem foldl_insertBefore_split (sel X Y : List Nat) (g : Nat)
    (hgX : g ∉ X) (hgsel : g ∉ sel) :
    sel.foldl (fun acc c => insertBefore acc g c) (X ++ g :: Y)
      = X ++ sel ++ g :: Y := by
  induction sel generalizing X with
  | nil => simp
  | cons c cs ih =>
      have hgc : g ≠ c := fun e => hgsel (e ▸ List.mem_cons_self c cs)
      have hgcs : g ∉ cs := fun hm => hgsel (List.mem_cons_of_mem c hm)
      simp only [List.foldl_cons, insertBefore_split X g c Y hgX]
      have hX' : g ∉ X ++ [c] := by
        simp only [List.mem_append, List.mem_singleton]
        rintro (h1 | h2)
        · exact hgX h1
        · exact hgc h2
      have := ih (X ++ [c]) hX' hgcs
      simpa [List.append_assoc] using this

theorem filter_in_of_filter_out (l sel : List Nat) :
    (l.filter (fun x => decide (x ∉ sel))).filter (fun x => decide (x ∈ sel)) = [] := by
  induction l with
  | nil => rfl
  | cons a t ih =>
      by_cases h : a ∈ sel
      · simp [List.filter_cons, h, ih]
      · simp [List.filter_cons, h, ih]

/-- C1: for a selection of two or more sibling eligible nodes, grouping then
ungrouping keeps the nodes under the original parent, restores the original
node set up to permutation, re-inserts the selected nodes in selection
order, and therefore restores their original document order exactly when the
selection order agrees with the document order; the resulting selection is
the original selection.  Per-node translation transforms are outside this
statement, as the claim exempts them. -/
theorem grouping_roundtrip (d : GDoc) (gid : Nat)
    (hlen : 2 ≤ d.selection.length)
    (hnd : d.siblings.Nodup) (hselnd : d.selection.Nodup)
    (hsub : ∀ x ∈ d.selection, x ∈ d.siblings)
    (hg1 : gid ∉ d.siblings) (hg2 : gid ∉ d.selection) :
    (ungroup (createAutoLayoutGroup gid d)).selection = d.selection ∧
    (ungroup (createAutoLayoutGroup gid d)).siblings.Perm d.siblings ∧
    (ungroup (createAutoLayoutGroup gid d)).siblings.filter
        (fun x => decide (x ∈ d.selection)) = d.selection ∧
    (d.siblings.filter (fun x => decide (x ∈ d.selection)) = d.selection →
      (ungroup (createAutoLayoutGroup gid d)).siblings.filter
          (fun x => decide (x ∈ d.selection))
        = d.siblings.filter (fun x => decide (x ∈ d.selection))) := by
  obtain ⟨s1, rest, hsel⟩ : ∃ s1 rest, d.selection = s1 :: rest := by
    cases hs : d.selection with
    | nil => rw [hs] at hlen; simp at hlen
    | cons a t => exact ⟨a, t, rfl⟩
  have hlen2 : ¬ d.selection.length < 2 := by omega
  have hd1 : createAutoLayoutGroup gid d =
      { siblings := d.selection.foldl (fun acc el => acc.erase el)
          (insertBefore d.siblings s1 gid)
        content := fun n => if n = gid then d.selection else d.content n
        tag := fun n => if n = gid then "g" else d.tag n
        selection := [gid] } := by
    rw [createAutoLayoutGroup, if_neg hlen2, hsel]
  have hs1mem : s1 ∈ d.siblings := hsub s1 (hsel ▸ List.mem_cons_self s1 rest)
  obtain ⟨A, B, hAB⟩ := List.append_of_mem hs1mem
  have hndAB : (A ++ s1 :: B).Nodup := hAB ▸ hnd
  have hs1A : s1 ∉ A := by
    rw [List.nodup_append] at hndAB
    exact fun hm => hndAB.2.2 hm (List.mem_cons_self s1 B)
  -- the parent child list right after grouping
  have hgroup : d.selection.foldl (fun acc el => acc.erase el)
      (insertBefore d.siblings s1 gid)
      = (A.filter (fun x => decide (x ∉ d.selection))) ++ gid ::
        (B.filter (fun x => decide (x ∉ d.selection))) := by
    have hins : insertBefore d.siblings s1 gid = A ++ gid :: s1 :: B := by
      rw [hAB, insertBefore_split A s1 gid B hs1A]
    rw [hins]
    have hfold : d.selection.foldl (fun acc el => acc.erase el) (A ++ gid :: s1 :: B)
        = (A ++ gid :: s1 :: B).diff d.selection := by
      rw [List.diff_eq_foldl]
    have hnodup2 : (A ++ gid :: s1 :: B).Nodup := by
      have hgAB : gid ∉ A ++ s1 :: B := hAB ▸ hg1
      rw [List.nodup_append] at hndAB ⊢
      refine ⟨hndAB.1, ?_, ?_⟩
      · rw [List.nodup_cons]
        constructor
        · exact fun hm => hgAB (List.mem_append_right A hm)
        · exact hndAB.2.1
      · intro a haA hacons
        rcases List.mem_cons.mp hacons with h1 | h2
        · exact hgAB (h1 ▸ List.mem_append_left _ haA)
        · exact hndAB.2.2 haA h2
    rw [hfold, hnodup2.diff_eq_filter]
    have hg2' : gid ∉ s1 :: rest := hsel ▸ hg2
    simp only [List.filter_append, List.filter_cons, hsel]
    simp [hg2']
  -- the parent child list after ungrouping
  have hresult : (ungroup (createAutoLayoutGroup gid d)).siblings
      = (A.filter (fun x => decide (x ∉ d.selection))) ++ d.selection ++
        (B.filter (fun x => decide (x ∉ d.selection)))
      ∧ (ungroup (createAutoLayoutGroup gid d)).selection = d.selection := by
    rw [hd1, ungroup]
    simp only [eq_self_iff_true, if_true, ite_true]
    constructor
    · have hAf : gid ∉ A.filter (fun x => decide (x ∉ d.selection)) := by
        intro hm
        exact hg1 (hAB ▸ List.mem_append_left _ (List.mem_of_mem_filter hm))
      rw [hgroup]
      rw [foldl_insertBefore_split d.selection _ _ gid hAf hg2]
      rw [List.erase_append_right _ (by
        intro hm
        rcases List.mem_append.mp hm with h1 | h2
        · exact hAf h1
        · exact hg2 h2)]
      rw [List.erase_cons_head]
    · trivial
  refine ⟨hresult.2, ?_, ?_, ?_⟩
  · -- permutation with the original sibling list
    rw [hresult.1, hAB]
    have hperm1 : (A ++ s1 :: B).Perm
        ((A ++ s1 :: B).filter (fun x => decide (x ∈ d.selection)) ++
         (A ++ s1 :: B).filter (fun x => decide (x ∉ d.selection))) := by
      have := List.filter_append_perm (fun x => decide (x ∈ d.selection)) (A ++ s1 :: B)
      have heq : (fun x => !(decide (x ∈ d.selection)))
          = (fun x => decide (x ∉ d.selection)) := by
        funext x; simp
      rw [heq] at this
      exact this.symm
    have hperm2 : ((A ++ s1 :: B).filter (fun x => decide (x ∈ d.selection))).Perm
        d.selection := by
      rw [List.perm_ext_iff_of_nodup (hndAB.filter _) hselnd]
      intro a
      simp only [List.mem_filter, decide_eq_true_eq]
      constructor
      · exact fun h => h.2
      · intro h
        exact ⟨hAB ▸ hsub a h, h⟩
    have hfsplit : (A ++ s1 :: B).filter (fun x => decide (x ∉ d.selection))
        = A.filter (fun x => decide (x ∉ d.selection)) ++
          B.filter (fun x => decide (x ∉ d.selection)) := by
      simp only [List.filter_append, List.filter_cons]
      have : (decide (s1 ∉ d.selection)) = false := by simp [hsel]
      rw [this]
      simp
    have p1 : (A.filter (fun x => decide (x ∉ d.selection)) ++ d.selection ++
        B.filter (fun x => decide (x ∉ d.selection))).Perm
        (d.selection ++ (A.filter (fun x => decide (x ∉ d.selection)) ++
          B.filter (fun x => decide (x ∉ d.selection)))) := by
      have h1 : (A.filter (fun x => decide (x ∉ d.selection)) ++ d.selection).Perm
          (d.selection ++ A.filter (fun x => decide (x ∉ d.selection))) :=
        List.perm_append_comm
      have h2 := h1.append_right (B.filter (fun x => decide (x ∉ d.selection)))
      simpa [List.append_assoc] using h2
    have p2 : (A ++ s1 :: B).Perm
        (d.selection ++ (A.filter (fun x => decide (x ∉ d.selection)) ++
          B.filter (fun x => decide (x ∉ d.selection)))) := by
      have := hperm1.trans ((hperm2.append_right _).trans (List.Perm.refl _))
      rw [hfsplit] at this
      exact this
    exact p1.trans p2.symm
  · -- the selected nodes come back in selection order
    rw [hresult.1]
    simp only [List.filter_append]
    rw [filter_in_of_filter_out A d.selection, filter_in_of_filter_out B d.selection]
    rw [List.filter_eq_self.mpr (fun a ha => by simpa using ha)]
    simp
  · -- document order restored when selection order agrees with it
    intro h
    rw [hresult.1]
    simp only [List.filter_append]
    rw [filter_in_of_filter_out A d.selection, filter_in_of_filter_out B d.selection]
    rw [List.filter_eq_self.mpr (fun a ha => by simpa using ha)]
    simp [h]

/-- C1 witness: the round trip theorem evaluated on three sibling
rectangles with the first two selected in document order. -/
theorem grouping_roundtrip_witness :
    (ungroup (createAutoLayoutGroup 9 gdocW)).selection = gdocW.selection ∧
    (ungroup (createAutoLayoutGroup 9 gdocW)).siblings.Perm gdocW.siblings ∧
    (ungroup (createAutoLayoutGroup 9 gdocW)).siblings.filter
        (fun x => decide (x ∈ gdocW.selection)) = gdocW.selection ∧
    (gdocW.siblings.filter (fun x => decide (x ∈ gdocW.selection)) = gdocW.selection →
      (ungroup (createAutoLayoutGroup 9 gdocW)).siblings.filter
          (fun x => decide (x ∈ gdocW.selection))
        = gdocW.siblings.filter (fun x => decide (x ∈ gdocW.selection))) :=
  grouping_roundtrip gdocW 9 (by decide) (by decide) (by decide) (by decide)
    (by decide) (by decide)

/-- C1 counterexample: with two sibling nodes selected against document
order, the round trip leaves the parent child list as node 2 before node 1,
so the original document order of the selected nodes is not restored; the
other preconditions of the claim all hold at this input. -/
theorem grouping_roundtrip_counterexample :
    gdocX.siblings = [1, 2] ∧ gdocX.selection = [2, 1] ∧
    gdocX.selection.length = 2 ∧ (∀ x ∈ gdocX.selection, x ∈ gdocX.siblings) ∧
    (ungroup (createAutoLayoutGroup 3 gdocX)).siblings = [2, 1] ∧
    ([2, 1] : List Nat) ≠ [1, 2] := by
  refine ⟨rfl, rfl, rfl, by decide, by decide, by decide⟩

/-! ### Silent precondition rejections (C5) -/

/-- C5: grouping with fewer than two selected elements, ungrouping when the
selection is not exactly one g container, and removing a gradient stop when
at most two stops remain are all silent no-ops: each operation returns its
input state unchanged, mutating neither the scene document nor the
selection nor the stop list. -/
theorem precondition_noops :
    (∀ (d : GDoc) (gid : Nat), d.selection.length < 2 →
       createAutoLayoutGroup gid d = d) ∧
    (∀ d : GDoc, (¬ ∃ g, d.selection = [g] ∧ d.tag g = "g") → ungroup d = d) ∧
    (∀ (doc : Doc) (props : GProps) (c s : ℚ) (rands : List String) (index : Nat),
       props.stops.length ≤ 2 →
       removeGradientStopOp doc props c s rands index = (doc, props)) := by
  refine ⟨?_, ?_, ?_⟩
  · intro d gid h
    simp [createAutoLayoutGroup, h]
  · intro d h
    rw [ungroup]
    cases hsel : d.selection with
    | nil => rfl
    | cons g tl =>
        cases tl with
        | nil =>
            by_cases htag : d.tag g = "g"
            · exact absurd ⟨g, hsel, htag⟩ h
            · simp [htag]
        | cons x xs => rfl
  · intro doc props c s rands index h
    simp [removeGradientStopOp, h]

/-- C5 witness: the three guards evaluated at concrete states: a single
selected node for grouping, a two-node selection for ungrouping, and a two
stop descriptor for stop removal. -/
theorem precondition_noops_witness :
    createAutoLayoutGroup 99
      { siblings := [1], content := fun _ => [], tag := fun _ => "rect",
        selection := [1] }
      = { siblings := [1], content := fun _ => [], tag := fun _ => "rect",
          selection := [1] } ∧
    ungroup
      { siblings := [1, 2], content := fun _ => [], tag := fun _ => "g",
        selection := [1, 2] }
      = { siblings := [1, 2], content := fun _ => [], tag := fun _ => "g",
          selection := [1, 2] } ∧
    removeGradientStopOp
      { rootChildren := [.defsC []], elems := [{ id := none, fill := none, origFill := none }] }
      { enabled := true, type := "linear", stops := [⟨0, "#6366f1"⟩, ⟨100, "#a855f7"⟩] }
      0 1 ["r1"] 1
      = ({ rootChildren := [.defsC []], elems := [{ id := none, fill := none, origFill := none }] },
         { enabled := true, type := "linear", stops := [⟨0, "#6366f1"⟩, ⟨100, "#a855f7"⟩] }) :=
  ⟨precondition_noops.1 _ 99 (by decide),
   precondition_noops.2.1 _ (by rintro ⟨g, hg, -⟩; simp at hg),
   precondition_noops.2.2 _ _ 0 1 ["r1"] 1 (by decide)⟩

/-! ### Selection toggle (C7) -/

/-- C7: for every selection and eligible clicked node, a shift click on a
selected node removes it, keeping every other selected element with its
multiplicity and relative order; a shift click on an unselected node
appends it; a plain click replaces the selection by that node alone. -/
theorem selection_toggle (sel : List Nat) (node : Nat) :
    (node ∈ sel →
       (selectAt sel node true).Sublist sel ∧
       node ∉ selectAt sel node true ∧
       ∀ m, m ≠ node → (selectAt sel node true).count m = sel.count m) ∧
    (node ∉ sel → selectAt sel node true = sel ++ [node]) ∧
    selectAt sel node false = [node] := by
  refine ⟨fun hmem => ⟨?_, ?_, ?_⟩, fun hmem => ?_, ?_⟩
  · simp only [selectAt, if_pos hmem, if_true]
    exact List.filter_sublist sel
  · simp [selectAt, hmem]
  · intro m hm
    simp only [selectAt, if_pos hmem, if_true]
    exact List.count_filter (by simp [hm])
  · simp [selectAt, hmem]
  · simp [selectAt]

/-- C7 witness: the toggle theorem evaluated on the selection 5, 7, 9 with
a shift click on 7, a shift click on 11 and a plain click on 7. -/
theorem selection_toggle_witness :
    (selectAt [5, 7, 9] 7 true).Sublist [5, 7, 9] ∧
    7 ∉ selectAt [5, 7, 9] 7 true ∧
    (selectAt [5, 7, 9] 7 true).count 5 = ([5, 7, 9] : List Nat).count 5 ∧
    selectAt [5, 7, 9] 11 true = [5, 7, 9, 11] ∧
    selectAt [5, 7, 9] 7 false = [7] :=
  ⟨((selection_toggle [5, 7, 9] 7).1 (by decide)).1,
   ((selection_toggle [5, 7, 9] 7).1 (by decide)).2.1,
   ((selection_toggle [5, 7, 9] 7).1 (by decide)).2.2 5 (by decide),
   (selection_toggle [5, 7, 9] 11).2.1 (by decide),
   (selection_toggle [5, 7, 9] 7).2.2⟩

/-! ### Gradient plumbing lemmas shared by the paint synthesizer claims -/

theorem gradStep_fold_disabled (props : GProps) (c s : ℚ)
    (hdis : props.enabled = false) (els : List Elem) :
    ∀ (defs : List GradElem) (rands : List String) (done : List Elem),
      els.foldl (gradStep props c s) (defs, rands, done)
        = (defs, rands,
           done ++ els.map (fun el => { el with fill := some (restoreFill el) })) := by
  induction els with
  | nil => intro defs rands done; simp
  | cons e t ih =>
      intro defs rands done
      have hstep : gradStep props c s (defs, rands, done) e
          = (defs, rands, done ++ [{ e with fill := some (restoreFill e) }]) := by
        simp [gradStep, hdis]
      simp only [List.foldl_cons, hstep, ih, List.map_cons, List.append_assoc,
        List.singleton_append]

theorem getDefs_ensureDefs (rc : List RootChild) :
    getDefs (ensureDefs rc) = some ((getDefs rc).getD []) := by
  cases h : getDefs rc with
  | none => simp [ensureDefs, h, getDefs]
  | some gs => simp [ensureDefs, h]

theorem setDefs_getDefs_self (rc : List RootChild) (d : List GradElem)
    (h : getDefs rc = some d) : setDefs d rc = rc := by
  induction rc with
  | nil => simp [getDefs] at h
  | cons hd tl ih =>
      cases hd with
      | defsC gs =>
          simp only [getDefs, Option.some.injEq] at h
          simp [setDefs, h]
      | other n =>
          simp only [getDefs] at h
          simp [setDefs, ih h]

theorem url_suffix_inj (a b : String)
    (h : "url(#grad-" ++ a ++ ")" = "url(#grad-" ++ b ++ ")") : a = b := by
  have hd := congrArg String.data h
  simp only [String.data_append, List.append_assoc] at hd
  have h1 := List.append_cancel_left hd
  have h2 := List.append_cancel_right h1
  exact String.ext h2

/-! ### Defs creation on the disabled path (C9) -/

/-- C9: a gradient update with a disabled descriptor and a non-empty
selection, on a document with no definitions container, still creates an
empty defs container and prepends it to the root child list, so the
document is mutated even though no gradient is applied. -/
theorem disabled_update_creates_defs (doc : Doc) (props : GProps) (c s : ℚ)
    (rands : List String)
    (hdefs : getDefs doc.rootChildren = none) (hne : doc.elems ≠ [])
    (hdis : props.enabled = false) :
    (updateGradientProperty doc props c s rands).rootChildren
        = RootChild.defsC [] :: doc.rootChildren ∧
    (updateGradientProperty doc props c s rands).rootChildren
        ≠ doc.rootChildren := by
  have hlen : ¬ doc.elems.length = 0 := by
    simpa [List.length_eq_zero] using hne
  have he : ensureDefs doc.rootChildren = .defsC [] :: doc.rootChildren := by
    simp [ensureDefs, hdefs]
  have hmain : (updateGradientProperty doc props c s rands).rootChildren
      = RootChild.defsC [] :: doc.rootChildren := by
    rw [updateGradientProperty, if_neg hlen]
    simp only [he, getDefs, Option.getD_some,
      gradStep_fold_disabled props c s hdis doc.elems _ rands [], setDefs]
  exact ⟨hmain, by rw [hmain]; exact List.cons_ne_self _ _⟩

/-- C9 witness: the defs creation theorem evaluated on a document whose
root has one non-defs child and one selected element, with the disabled
descriptor. -/
theorem disabled_update_creates_defs_witness :
    (updateGradientProperty docB propsOff 0 0 []).rootChildren
        = RootChild.defsC [] :: docB.rootChildren ∧
    (updateGradientProperty docB propsOff 0 0 []).rootChildren
        ≠ docB.rootChildren :=
  disabled_update_creates_defs docB propsOff 0 0 [] (by decide) (by decide) rfl

/-! ### Disabled descriptor fill restoration (C3) -/

/-- C3 amended: a gradient update with a disabled descriptor and a
non-empty selection sets each element fill to its recorded original fill,
falling back to the element current fill and only then to the neutral
default, and leaves the recorded original fill attribute of every element
unchanged rather than clearing it. -/
theorem disabled_restores_fill (doc : Doc) (props : GProps) (c s : ℚ)
    (rands : List String)
    (hdis : props.enabled = false) (hne : doc.elems ≠ []) :
    (updateGradientProperty doc props c s rands).elems
        = doc.elems.map (fun el => { el with fill := some (restoreFill el) }) ∧
    (updateGradientProperty doc props c s rands).elems.map Elem.origFill
        = doc.elems.map Elem.origFill := by
  have hlen : ¬ doc.elems.length = 0 := by
    simpa [List.length_eq_zero] using hne
  have hmain : (updateGradientProperty doc props c s rands).elems
      = doc.elems.map (fun el => { el with fill := some (restoreFill el) }) := by
    rw [updateGradientProperty, if_neg hlen]
    simp only [gradStep_fold_disabled props c s hdis doc.elems _ rands [],
      List.nil_append]
  refine ⟨hmain, ?_⟩
  rw [hmain, List.map_map]
  rfl

/-- C3 witness: the restoration theorem evaluated on the two element
document: the element without a recorded original keeps its current fill,
the element with a recorded original gets it back and keeps the record. -/
theorem disabled_restores_fill_witness :
    (updateGradientProperty docA propsOff 0 0 []).elems
        = docA.elems.map (fun el => { el with fill := some (restoreFill el) }) ∧
    (updateGradientProperty docA propsOff 0 0 []).elems.map Elem.origFill
        = docA.elems.map Elem.origFill :=
  disabled_restores_fill docA propsOff 0 0 [] rfl (by decide)

/-- C3 counterexample: on an element with fill red and no recorded
original, the disabled update leaves the fill red instead of the neutral
default claimed, and on an element with a recorded original the record is
still present afterwards instead of cleared. -/
theorem disabled_restores_fill_counterexample :
    (updateGradientProperty docA propsOff 0 0 []).elems
        = [{ id := none, fill := some "red", origFill := none },
           { id := none, fill := some "#00ff00", origFill := some "#00ff00" }] ∧
    some "red" ≠ some "#cccccc" ∧
    ((updateGradientProperty docA propsOff 0 0 []).elems.map Elem.origFill).getD 1 none
        ≠ none := by
  refine ⟨by decide, by decide, by decide⟩

/-! ### Random paint-server ids for id-less elements (C10) -/

/-- C10: for an element without an id, the enabled gradient update binds
the element fill to a paint-server id built from the consumed random
suffix, so two runs with different random draws bind different ids: the
operation is not deterministic for id-less elements. -/
theorem random_grad_id (doc : Doc) (props : GProps) (c s : ℚ) (el : Elem)
    (r1 r2 : String)
    (hel : doc.elems = [el]) (hid : truthy el.id = false)
    (hen : props.enabled = true) :
    (updateGradientProperty doc props c s [r1]).elems.map Elem.fill
        = [some ("url(#grad-" ++ r1 ++ ")")] ∧
    (updateGradientProperty doc props c s [r2]).elems.map Elem.fill
        = [some ("url(#grad-" ++ r2 ++ ")")] ∧
    (r1 ≠ r2 →
      (updateGradientProperty doc props c s [r1]).elems.map Elem.fill
        ≠ (updateGradientProperty doc props c s [r2]).elems.map Elem.fill) := by
  have hone : ∀ r : String,
      (updateGradientProperty doc props c s [r]).elems.map Elem.fill
        = [some ("url(#grad-" ++ r ++ ")")] := by
    intro r
    have hlen : ¬ doc.elems.length = 0 := by simp [hel]
    rw [updateGradientProperty, if_neg hlen, hel]
    have hnotdis : ¬ props.enabled = false := by simp [hen]
    simp only [List.foldl_cons, List.foldl_nil, gradStep, hid, if_neg hnotdis,
      Bool.false_eq_true, if_false, List.headD_cons, List.nil_append,
      List.map_cons, List.map_nil]
    rw [← String.append_assoc]
    rfl
  refine ⟨hone r1, hone r2, fun hne heq => hne ?_⟩
  rw [hone r1, hone r2] at heq
  have h1 : some ("url(#grad-" ++ r1 ++ ")") = some ("url(#grad-" ++ r2 ++ ")") := by
    injection heq
  exact url_suffix_inj r1 r2 (Option.some.inj h1)

/-- C10 witness: two runs on the same id-less element document with random
suffixes abc and xyz bind different paint-server references. -/
theorem random_grad_id_witness :
    (updateGradientProperty docC propsOn 0 1 ["abc"]).elems.map Elem.fill
        = [some ("url(#grad-abc)")] ∧
    (updateGradientProperty docC propsOn 0 1 ["xyz"]).elems.map Elem.fill
        = [some ("url(#grad-xyz)")] ∧
    (updateGradientProperty docC propsOn 0 1 ["abc"]).elems.map Elem.fill
        ≠ (updateGradientProperty docC propsOn 0 1 ["xyz"]).elems.map Elem.fill := by
  have h := random_grad_id docC propsOn 0 1
    { id := none, fill := some "#fff", origFill := none } "abc" "xyz"
    rfl rfl rfl
  exact ⟨h.1, h.2.1, h.2.2 (by decide)⟩

/-! ### Row layout offsets (C4) -/

theorem layoutChildren_length (d : String) (gap padding : ℚ) :
    ∀ (cs : List LChild) (offset : ℚ),
      (layoutChildren d gap padding cs offset).length = cs.length := by
  intro cs
  induction cs with
  | nil => intro offset; simp [layoutChildren]
  | cons c t ih =>
      intro offset
      by_cases htd : c.tag = "title" ∨ c.tag = "desc"
      · simp [layoutChildren, htd, ih]
      · cases hb : c.box with
        | none => simp [layoutChildren, htd, hb, ih]
        | some p =>
            obtain ⟨w, h⟩ := p
            by_cases hdir : d = "horizontal"
            · subst hdir
              simp [layoutChildren, htd, hb, ih]
            · simp [layoutChildren, htd, hb, hdir, ih]

theorem layoutChildren_get?_horizontal (gap padding : ℚ) :
    ∀ (cs : List LChild) (offset : ℚ) (i : Nat),
      (∀ c ∈ cs, (c.tag ≠ "title" ∧ c.tag ≠ "desc") ∧ c.box.isSome) →
      (layoutChildren "horizontal" gap padding cs offset).get? i
        = (cs.get? i).map (fun c =>
            { c with transform := some (offset + ((cs.take i).map (fun c2 => widthOf c2 + gap)).sum, padding) }) := by
  intro cs
  induction cs with
  | nil => intro offset i hall; simp [layoutChildren]
  | cons c t ih =>
      intro offset i hall
      obtain ⟨⟨ht1, ht2⟩, hbox⟩ := hall c (List.mem_cons_self c t)
      obtain ⟨p, hp⟩ := Option.isSome_iff_exists.mp hbox
      have hw : widthOf c = p.1 := by simp [widthOf, hp]
      have hnottd : ¬ (c.tag = "title" ∨ c.tag = "desc") := by
        rintro (h | h)
        · exact ht1 h
        · exact ht2 h
      have hallt : ∀ c2 ∈ t, (c2.tag ≠ "title" ∧ c2.tag ≠ "desc") ∧ c2.box.isSome :=
        fun c2 hc2 => hall c2 (List.mem_cons_of_mem c hc2)
      cases i with
      | zero =>
          simp [layoutChildren, hnottd, hp]
      | succ i =>
          have hstep : layoutChildren "horizontal" gap padding (c :: t) offset
              = { c with transform := some (offset, padding) } ::
                layoutChildren "horizontal" gap padding t (offset + p.1 + gap) := by
            simp [layoutChildren, hnottd, hp]
          rw [hstep]
          simp only [List.get?_cons_succ, ih (offset + p.1 + gap) i hallt,
            List.take_succ_cons, List.map_cons, List.sum_cons, hw]
          have harith : offset + p.1 + gap +
              ((t.take i).map (fun c2 => widthOf c2 + gap)).sum
              = offset + (p.1 + gap +
                ((t.take i).map (fun c2 => widthOf c2 + gap)).sum) := by ring
          rw [harith]

/-- C4 amended: for a row-direction flex container whose children are all
measurable and none a title or desc node, layout gives the child at index i
the translation with x-offset padding plus the sum over earlier children of
width plus gap and y-offset padding; and when every child has width plus
gap positive, the x-offsets are strictly increasing in document order.  The
strict increase fails without the positivity proviso, which the claim
omits. -/
theorem row_layout_offsets (gap padding : ℚ) (children : List LChild)
    (hall : ∀ c ∈ children, (c.tag ≠ "title" ∧ c.tag ≠ "desc") ∧ c.box.isSome) :
    (∀ (i : Nat) (c0 : LChild),
       (runAutoLayout (some "flex") (some "horizontal") gap padding children).get? i
         = some c0 →
       c0.transform = some
         (padding + ((children.take i).map (fun c => widthOf c + gap)).sum,
          padding)) ∧
    ((∀ c ∈ children, 0 < widthOf c + gap) →
      ∀ (i j : Nat) (ci cj : LChild), i < j →
        (runAutoLayout (some "flex") (some "horizontal") gap padding children).get? i
          = some ci →
        (runAutoLayout (some "flex") (some "horizontal") gap padding children).get? j
          = some cj →
        xOf ci < xOf cj) := by
  have hrun : runAutoLayout (some "flex") (some "horizontal") gap padding children
      = layoutChildren "horizontal" gap padding children padding := by
    simp [runAutoLayout, jsOr]
  have hget : ∀ (i : Nat) (c0 : LChild),
      (runAutoLayout (some "flex") (some "horizontal") gap padding children).get? i
        = some c0 →
      c0.transform = some
        (padding + ((children.take i).map (fun c => widthOf c + gap)).sum,
         padding) := by
    intro i c0 h0
    rw [hrun, layoutChildren_get?_horizontal gap padding children padding i hall] at h0
    obtain ⟨c, -, hmap⟩ := Option.map_eq_some'.mp h0
    rw [← hmap]
  refine ⟨hget, ?_⟩
  intro hpos i j ci cj hij hi hj
  have hxi := hget i ci hi
  have hxj := hget j cj hj
  have hjlen : j < children.length := by
    rw [hrun] at hj
    obtain ⟨hlt, -⟩ := List.get?_eq_some.mp hj
    rwa [layoutChildren_length "horizontal" gap padding children padding] at hlt
  have hsum : ((children.take i).map (fun c => widthOf c + gap)).sum
      < ((children.take j).map (fun c => widthOf c + gap)).sum := by
    have hdecomp : children.take j
        = children.take i ++ (children.drop i).take (j - i) := by
      conv_lhs => rw [show j = i + (j - i) from by omega]
      rw [List.take_add]
    rw [hdecomp, List.map_append, List.sum_append]
    have hextra : 0 < (((children.drop i).take (j - i)).map
        (fun c => widthOf c + gap)).sum := by
      apply List.sum_pos
      · intro x hx
        obtain ⟨c, hc, hcx⟩ := List.mem_map.mp hx
        have hcmem : c ∈ children :=
          List.drop_subset i children (List.take_subset _ _ hc)
        rw [← hcx]
        exact hpos c hcmem
      · have hlenex : 0 < ((children.drop i).take (j - i)).length := by
          rw [List.length_take, List.length_drop]
          omega
        intro hnil
        rw [List.map_eq_nil_iff] at hnil
        rw [hnil] at hlenex
        simp at hlenex
    linarith
  have hxieq : xOf ci = padding +
      ((children.take i).map (fun c => widthOf c + gap)).sum := by
    simp [xOf, hxi]
  have hxjeq : xOf cj = padding +
      ((children.take j).map (fun c => widthOf c + gap)).sum := by
    simp [xOf, hxj]
  rw [hxieq, hxjeq]
  exact add_lt_add_left hsum padding

/-- C4 witness: two rectangles of widths three and four with gap two and
padding sixteen land at x-offsets sixteen and twenty-one, strictly
increasing. -/
theorem row_layout_offsets_witness :
    (runAutoLayout (some "flex") (some "horizontal") 2 16 lchildren).get? 0
        = some { tag := "rect", box := some (3, 5), transform := some (16, 16) } ∧
    (runAutoLayout (some "flex") (some "horizontal") 2 16 lchildren).get? 1
        = some { tag := "rect", box := some (4, 6), transform := some (21, 16) } ∧
    xOf { tag := "rect", box := some (3, 5), transform := some (16, 16) }
      < xOf { tag := "rect", box := some (4, 6), transform := some (21, 16) } := by
  have hrect : ("rect" = "title" ∨ "rect" = "desc") = False := by simp
  have h0 : (runAutoLayout (some "flex") (some "horizontal") 2 16 lchildren).get? 0
      = some { tag := "rect", box := some (3, 5), transform := some (16, 16) } := by
    norm_num [runAutoLayout, jsOr, lchildren, layoutChildren, hrect]
  have h1 : (runAutoLayout (some "flex") (some "horizontal") 2 16 lchildren).get? 1
      = some { tag := "rect", box := some (4, 6), transform := some (21, 16) } := by
    norm_num [runAutoLayout, jsOr, lchildren, layoutChildren, hrect]
  refine ⟨h0, h1, ?_⟩
  exact (row_layout_offsets 2 16 lchildren (by decide)).2
    (by norm_num [lchildren, widthOf]) 0 1
    { tag := "rect", box := some (3, 5), transform := some (16, 16) }
    { tag := "rect", box := some (4, 6), transform := some (21, 16) }
    (by decide) h0 h1

/-- C4 counterexample: two measurable zero width children with gap zero and
padding zero both land at x-offset zero, so the translations are not
strictly increasing even though every hypothesis of the claim holds; the
strict increase needs the positivity proviso. -/
theorem row_layout_strict_counterexample :
    (runAutoLayout (some "flex") (some "horizontal") 0 0 lzero).get? 0
        = some { tag := "rect", box := some (0, 0), transform := some (0, 0) } ∧
    (runAutoLayout (some "flex") (some "horizontal") 0 0 lzero).get? 1
        = some { tag := "rect", box := some (0, 0), transform := some (0, 0) } ∧
    ¬ xOf { tag := "rect", box := some (0, 0), transform := some (0, 0) }
      < xOf ({ tag := "rect", box := some (0, 0), transform := some (0, 0) } : LChild) := by
  have hrect0 : ("rect" = "title" ∨ "rect" = "desc") = False := by simp
  refine ⟨?_, ?_, ?_⟩
  · norm_num [runAutoLayout, jsOr, lzero, layoutChildren, hrect0]
  · norm_num [runAutoLayout, jsOr, lzero, layoutChildren, hrect0]
  · norm_num [xOf]

/-! ### Retry and classification of generation failures (C8) -/

theorem classify_quota_signals (e : JsErr) (h : classify e = .quotaExceeded) :
    isEntityError e = false ∧ isQuotaError e = true := by
  cases he : isEntityError e with
  | true => simp [classify, he] at h
  | false =>
      cases hq : isQuotaError e with
      | true => exact ⟨rfl, rfl⟩
      | false => simp [classify, he, hq] at h

theorem withRetryGo_all_quota (attempts : Nat → Attempt) (maxRetries : Nat)
    (errs : Nat → JsErr)
    (hfail : ∀ k, k ≤ maxRetries → attempts k = .fail (errs k))
    (hclass : ∀ k, k ≤ maxRetries → classify (errs k) = .quotaExceeded) :
    ∀ (n i delay : Nat) (delays : List Nat),
      1 ≤ n → i + n = maxRetries + 1 →
      withRetryGo attempts maxRetries n i delay delays
        = (.thrown (.orig (errs maxRetries)),
           delays ++ (List.range (maxRetries - i)).map (fun k => delay * 2 ^ k)) := by
  intro n
  induction n with
  | zero => intro i delay delays hn; omega
  | succ m ih =>
      intro i delay delays hn hsum
      have hile : i ≤ maxRetries := by omega
      obtain ⟨hent, hq⟩ := classify_quota_signals (errs i) (hclass i hile)
      rw [withRetryGo, hfail i hile]
      simp only [hent, Bool.false_eq_true, if_false, hq, true_and]
      by_cases him : i = maxRetries
      · subst him
        rw [if_neg (lt_irrefl _)]
        simp
      · have hlt : i < maxRetries := by omega
        rw [if_pos hlt]
        rw [ih (i + 1) (delay * 2) (delays ++ [delay]) (by omega) (by omega)]
        have hrange : maxRetries - i = (maxRetries - i - 1) + 1 := by omega
        rw [show maxRetries - (i + 1) = maxRetries - i - 1 from by omega]
        rw [hrange, List.range_succ_eq_map, List.map_cons, List.map_map]
        have hfun : ((fun k => delay * 2 ^ k) ∘ Nat.succ)
            = (fun k => delay * 2 * 2 ^ k) := by
          funext k
          simp only [Function.comp]
          rw [pow_succ]
          ring
        rw [hfun]
        simp [List.append_assoc]

/-- C8: when every attempt fails with a failure the catch block classifies
as quota (and not as session invalid, which is checked first), the wrapper
sleeps the exponentially doubling delays two seconds, four seconds and so
on for each of the maxRetries retries and then rethrows the original error;
when the first attempt fails with a failure classified as session invalid,
the wrapper throws ENTITY_NOT_FOUND at once, with no retry and no delay. -/
theorem retry_behavior (attempts : Nat → Attempt) (maxRetries : Nat)
    (errs : Nat → JsErr) :
    ((∀ k, k ≤ maxRetries →
        attempts k = .fail (errs k) ∧ classify (errs k) = .quotaExceeded) →
      withRetry attempts maxRetries
        = (.thrown (.orig (errs maxRetries)),
           (List.range maxRetries).map (fun k => 2000 * 2 ^ k))) ∧
    (∀ e, attempts 0 = .fail e → classify e = .sessionInvalid →
      withRetry attempts maxRetries = (.thrown .entityNotFound, [])) := by
  constructor
  · intro h
    have hgo := withRetryGo_all_quota attempts maxRetries errs
      (fun k hk => (h k hk).1) (fun k hk => (h k hk).2)
      (maxRetries + 1) 0 2000 [] (by omega) (by omega)
    simpa [withRetry] using hgo
  · intro e h0 hc
    have hent : isEntityError e = true := by
      cases he : isEntityError e with
      | true => rfl
      | false => cases hq : isQuotaError e <;> simp [classify, he, hq] at hc
    rw [withRetry, withRetryGo, h0]
    simp [hent]

/-- C8 witness: with maxRetries two and every attempt failing with a 429
status, the wrapper sleeps 2000 then 4000 milliseconds and rethrows the
original error; a first failure carrying the entity message, even alongside
a 429 signal, is thrown as ENTITY_NOT_FOUND with no delay. -/
theorem retry_behavior_witness :
    withRetry (fun _ => .fail errQ) 2 = (.thrown (.orig errQ), [2000, 4000]) ∧
    withRetry (fun _ => .fail errE) 2 = (.thrown .entityNotFound, []) := by
  constructor
  · have h := (retry_behavior (fun _ => .fail errQ) 2 (fun _ => errQ)).1
      (fun k hk => ⟨rfl, by decide⟩)
    exact h.trans (by decide)
  · exact (retry_behavior (fun _ => .fail errE) 2 (fun _ => errE)).2 errE rfl (by decide)

/-! ### Linear gradient endpoint attributes (C2) -/

theorem findGrad_cons_pos (gid : String) (g : GradElem) (rest : List GradElem)
    (h : g.gid = gid) : findGrad gid (g :: rest) = some g := by
  simp [findGrad, List.find?_cons_of_pos, h]

theorem findGrad_cons_neg (gid : String) (g : GradElem) (rest : List GradElem)
    (h : g.gid ≠ gid) : findGrad gid (g :: rest) = findGrad gid rest := by
  simp [findGrad, List.find?_cons_of_neg, h]

theorem findGrad_updateFirst_ne (gid gid2 : String) (f : GradElem → GradElem)
    (hf : ∀ x, x.gid = gid2 → (f x).gid = gid2) (hne : gid ≠ gid2) :
    ∀ l : List GradElem, findGrad gid (updateFirst gid2 f l) = findGrad gid l := by
  intro l
  induction l with
  | nil => rfl
  | cons g rest ih =>
      by_cases hg : g.gid = gid2
      · rw [updateFirst, if_pos hg]
        rw [findGrad_cons_neg gid (f g) rest (by rw [hf g hg]; exact fun h => hne h.symm)]
        rw [findGrad_cons_neg gid g rest (by rw [hg]; exact fun h => hne h.symm)]
      · rw [updateFirst, if_neg hg]
        by_cases hgid : g.gid = gid
        · rw [findGrad_cons_pos gid g _ hgid, findGrad_cons_pos gid g rest hgid]
        · rw [findGrad_cons_neg gid g _ hgid, findGrad_cons_neg gid g rest hgid, ih]

theorem findGrad_updateFirst_eq (gid2 : String) (f : GradElem → GradElem)
    (hf : ∀ x, x.gid = gid2 → (f x).gid = gid2) :
    ∀ (l : List GradElem) (g : GradElem), findGrad gid2 l = some g →
      findGrad gid2 (updateFirst gid2 f l) = some (f g) := by
  intro l
  induction l with
  | nil => intro g h; simp [findGrad] at h
  | cons a rest ih =>
      intro g h
      by_cases ha : a.gid = gid2
      · rw [findGrad_cons_pos gid2 a rest ha] at h
        rw [updateFirst, if_pos ha,
          findGrad_cons_pos gid2 (f a) rest (hf a ha)]
        rw [Option.some.inj h]
      · rw [findGrad_cons_neg gid2 a rest ha] at h
        rw [updateFirst, if_neg ha, findGrad_cons_neg gid2 a _ ha]
        exact ih g h

theorem findGrad_append_some (gid : String) (l l2 : List GradElem) (g : GradElem)
    (h : findGrad gid l = some g) : findGrad gid (l ++ l2) = some g := by
  rw [findGrad, List.find?_append]
  rw [findGrad] at h
  rw [h]
  rfl

theorem findGrad_append_new (gid : String) (l : List GradElem) (g : GradElem)
    (h : findGrad gid l = none) (hg : g.gid = gid) :
    findGrad gid (l ++ [g]) = some g := by
  rw [findGrad, List.find?_append]
  rw [findGrad] at h
  rw [h]
  simp [List.find?, hg]

theorem setStops_setGeometry_gid (ty : String) (c s : ℚ) (st : List Stop)
    (g : GradElem) : (setStops st (setGeometry ty c s g)).gid = g.gid := by
  by_cases h : ty = "linear" <;> simp [setStops, setGeometry, h]

theorem setStops_setGeometry_linear_geom (c s : ℚ) (st : List Stop)
    (g : GradElem) : geomLinear c s (setStops st (setGeometry "linear" c s g)) := by
  refine ⟨?_, ?_, ?_, ?_⟩ <;> simp [setStops, setGeometry, geomLinear, mul_comm]

theorem installGrad_establishes (props : GProps) (c s : ℚ) (gradId : String)
    (defs : List GradElem) (hty : props.type = "linear") :
    ∃ g, findGrad gradId (installGrad props c s gradId defs) = some g ∧
      geomLinear c s g := by
  rw [installGrad]
  cases hfind : findGrad gradId defs with
  | none =>
      dsimp only
      refine ⟨_, findGrad_append_new gradId defs _ hfind ?_, ?_⟩
      · rw [setStops_setGeometry_gid]
        simp [newGradElem]
      · rw [hty]
        exact setStops_setGeometry_linear_geom c s props.stops _
  | some g =>
      dsimp only
      by_cases htag : g.tag.toLower ≠ (desiredTag props.type).toLower
      · rw [if_pos htag]
        refine ⟨_, findGrad_updateFirst_eq gradId _ ?_ defs g hfind, ?_⟩
        · intro x hx
          rw [setStops_setGeometry_gid]
          simp [newGradElem]
        · rw [hty]
          exact setStops_setGeometry_linear_geom c s props.stops _
      · rw [if_neg htag]
        refine ⟨_, findGrad_updateFirst_eq gradId _ ?_ defs g hfind, ?_⟩
        · intro x hx
          rw [setStops_setGeometry_gid]
          exact hx
        · rw [hty]
          exact setStops_setGeometry_linear_geom c s props.stops _

theorem installGrad_preserves (props : GProps) (c s : ℚ) (gradId gid : String)
    (defs : List GradElem) (g : GradElem)
    (h : findGrad gid defs = some g) (hgeom : geomLinear c s g)
    (hty : props.type = "linear") :
    ∃ g2, findGrad gid (installGrad props c s gradId defs) = some g2 ∧
      geomLinear c s g2 := by
  by_cases hsame : gid = gradId
  · subst hsame
    exact installGrad_establishes props c s gid defs hty
  · rw [installGrad]
    cases hfind : findGrad gradId defs with
    | none => exact ⟨g, findGrad_append_some gid defs _ g h, hgeom⟩
    | some g1 =>
        dsimp only
        by_cases htag : g1.tag.toLower ≠ (desiredTag props.type).toLower
        · rw [if_pos htag]
          refine ⟨g, ?_, hgeom⟩
          rw [findGrad_updateFirst_ne gid gradId _ ?_ hsame defs]
          · exact h
          · intro x hx
            rw [setStops_setGeometry_gid]
            simp [newGradElem]
        · rw [if_neg htag]
          refine ⟨g, ?_, hgeom⟩
          rw [findGrad_updateFirst_ne gid gradId _ ?_ hsame defs]
          · exact h
          · intro x hx
            rw [setStops_setGeometry_gid]
            exact hx

theorem gradStep_inv (props : GProps) (c s : ℚ)
    (hen : props.enabled = true) (hty : props.type = "linear")
    (acc : List GradElem × List String × List Elem) (el : Elem)
    (hinv : GradInv c s acc.1 acc.2.2) :
    GradInv c s (gradStep props c s acc el).1 (gradStep props c s acc el).2.2 := by
  obtain ⟨defs, rands, done⟩ := acc
  have hnotdis : ¬ props.enabled = false := by simp [hen]
  rw [gradStep]
  simp only [if_neg hnotdis]
  intro e he
  rcases List.mem_append.mp he with hdone | hnew
  · obtain ⟨gid, g, hfill, hfind, hgeom⟩ := hinv e hdone
    obtain ⟨g2, hfind2, hgeom2⟩ :=
      installGrad_preserves props c s _ gid defs g hfind hgeom hty
    exact ⟨gid, g2, hfill, hfind2, hgeom2⟩
  · rw [List.mem_singleton.mp hnew]
    obtain ⟨g, hfind, hgeom⟩ := installGrad_establishes props c s
      (if truthy el.id then "grad-" ++ el.id.getD "" else "grad-" ++ rands.headD "r0")
      defs hty
    exact ⟨_, g, rfl, hfind, hgeom⟩

theorem foldl_gradStep_inv (props : GProps) (c s : ℚ)
    (hen : props.enabled = true) (hty : props.type = "linear") :
    ∀ (els : List Elem) (acc : List GradElem × List String × List Elem),
      GradInv c s acc.1 acc.2.2 →
      GradInv c s (els.foldl (gradStep props c s) acc).1
        (els.foldl (gradStep props c s) acc).2.2 := by
  intro els
  induction els with
  | nil => intro acc h; exact h
  | cons e t ih =>
      intro acc h
      exact ih (gradStep props c s acc e) (gradStep_inv props c s hen hty acc e h)

theorem getDefs_setDefs (rc : List RootChild) (d : List GradElem)
    (h : (getDefs rc).isSome) : getDefs (setDefs d rc) = some d := by
  induction rc with
  | nil => simp [getDefs] at h
  | cons hd tl ih =>
      cases hd with
      | defsC gs => simp [getDefs, setDefs]
      | other n =>
          simp only [getDefs] at h
          simp [getDefs, setDefs, ih h]

/-- C2: applying the enabled linear descriptor to a non-empty selection
binds every selected element to a paint-server node whose endpoint
attributes are the rounded percentages x1 = 50 - 50 cos, y1 = 50 - 50 sin,
x2 = 50 + 50 cos and y2 = 50 + 50 cos of the angle, the y2 attribute using
the cosine exactly as the source writes it; c and s are the cosine and sine
of the angle, tied to the angle by the Real hypotheses. -/
theorem linear_gradient_endpoints (doc : Doc) (props : GProps) (θ : ℝ)
    (c s : ℚ) (rands : List String)
    (hen : props.enabled = true) (hty : props.type = "linear")
    (hne : doc.elems ≠ [])
    (hc : (c : ℝ) = Real.cos (θ * Real.pi / 180))
    (hs : (s : ℝ) = Real.sin (θ * Real.pi / 180)) :
    ∀ el ∈ (updateGradientProperty doc props c s rands).elems,
      ∃ gid g, el.fill = some ("url(#" ++ gid ++ ")") ∧
        findGrad gid
          ((getDefs (updateGradientProperty doc props c s rands).rootChildren).getD [])
          = some g ∧
        g.x1 = some (pct (50 - 50 * c)) ∧ g.y1 = some (pct (50 - 50 * s)) ∧
        g.x2 = some (pct (50 + 50 * c)) ∧ g.y2 = some (pct (50 + 50 * c)) := by
  have hlen : ¬ doc.elems.length = 0 := by
    simpa [List.length_eq_zero] using hne
  have hup : updateGradientProperty doc props c s rands
      = { rootChildren :=
            setDefs (doc.elems.foldl (gradStep props c s)
              ((getDefs (ensureDefs doc.rootChildren)).getD [], rands, [])).1
              (ensureDefs doc.rootChildren)
          elems := (doc.elems.foldl (gradStep props c s)
              ((getDefs (ensureDefs doc.rootChildren)).getD [], rands, [])).2.2 } := by
    rw [updateGradientProperty, if_neg hlen]
  have hinv0 : GradInv c s
      ((getDefs (ensureDefs doc.rootChildren)).getD []) ([] : List Elem) := by
    intro e he
    simp at he
  have hinv := foldl_gradStep_inv props c s hen hty doc.elems
    ((getDefs (ensureDefs doc.rootChildren)).getD [], rands, []) hinv0
  intro el hel
  rw [hup] at hel
  have hdefsread : (getDefs (updateGradientProperty doc props c s rands).rootChildren).getD []
      = (doc.elems.foldl (gradStep props c s)
          ((getDefs (ensureDefs doc.rootChildren)).getD [], rands, [])).1 := by
    rw [hup]
    rw [getDefs_setDefs (ensureDefs doc.rootChildren) _ (by
      rw [getDefs_ensureDefs]
      rfl)]
    rfl
  obtain ⟨gid, g, hfill, hfind, hg1, hg2, hg3, hg4⟩ := hinv el hel
  refine ⟨gid, g, hfill, ?_, hg1, hg2, hg3, hg4⟩
  rw [hdefsread]
  exact hfind

theorem jsRound_intCast (n : ℤ) : jsRound (n : ℚ) = n := by
  rw [jsRound, Int.floor_eq_iff]
  constructor
  · push_cast
    linarith
  · push_cast
    linarith

theorem pct_intCast (n : ℤ) : pct (n : ℚ) = toString n ++ "%" := by
  rw [pct, jsRound_intCast]

/-- C2 witness: at angle 90 the cosine is zero and the sine is one, and the
theorem instantiated on a one element selection with explicit id box gives
endpoint attributes 50, 0, 50 and 50 percent, y2 sharing the x2 value per
the preserved formula. -/
theorem linear_gradient_endpoints_witness :
    (∃ gid g,
      ({ id := some "box", fill := some "url(#grad-box)",
         origFill := some "#fff" } : Elem).fill = some ("url(#" ++ gid ++ ")") ∧
      findGrad gid
        ((getDefs (updateGradientProperty docD propsOn 0 1 []).rootChildren).getD [])
        = some g ∧
      g.x1 = some (pct (50 - 50 * 0)) ∧ g.y1 = some (pct (50 - 50 * 1)) ∧
      g.x2 = some (pct (50 + 50 * 0)) ∧ g.y2 = some (pct (50 + 50 * 0))) ∧
    pct (50 - 50 * (0 : ℚ)) = "50%" ∧ pct (50 - 50 * (1 : ℚ)) = "0%" ∧
    pct (50 + 50 * (0 : ℚ)) = "50%" := by
  constructor
  · exact linear_gradient_endpoints docD propsOn 90 0 1 [] rfl rfl (by decide)
      (by
        have h : (90 : ℝ) * Real.pi / 180 = Real.pi / 2 := by ring
        rw [h, Real.cos_pi_div_two]
        norm_num)
      (by
        have h : (90 : ℝ) * Real.pi / 180 = Real.pi / 2 := by ring
        rw [h, Real.sin_pi_div_two]
        norm_num)
      { id := some "box", fill := some "url(#grad-box)", origFill := some "#fff" }
      (by decide)
  · refine ⟨?_, ?_, ?_⟩
    · rw [show (50 - 50 * (0 : ℚ)) = ((50 : ℤ) : ℚ) from by norm_num, pct_intCast]
      rfl
    · rw [show (50 - 50 * (1 : ℚ)) = ((0 : ℤ) : ℚ) from by norm_num, pct_intCast]
      rfl
    · rw [show (50 + 50 * (0 : ℚ)) = ((50 : ℤ) : ℚ) from by norm_num, pct_intCast]
      rfl

/-! ### Gradient panel derivation on selection change (C6) -/

/-- C6 amended: on selection change, a first element whose fill is absent,
empty or not a paint-server reference disables the gradient panel; a fill
that is a reference resolving to a paint-server node enables the panel; a
fill that is a reference that does not resolve runs no update at all, so
the panel keeps its previous state instead of being marked disabled. -/
theorem gradient_panel_derivation (prev : GradPanel) (fill : Option String)
    (rc : List RootChild) :
    (truthy fill = false →
       deriveGradientPanel prev fill rc = { prev with enabled := false }) ∧
    (∀ f, fill = some f → f ≠ "" → jsStartsWith f "url(#" = false →
       deriveGradientPanel prev fill rc = { prev with enabled := false }) ∧
    (∀ f, fill = some f → f ≠ "" → jsStartsWith f "url(#" = true →
       findGradInRoot (gradIdOf f) rc = none →
       deriveGradientPanel prev fill rc = prev) ∧
    (∀ f g, fill = some f → f ≠ "" → jsStartsWith f "url(#" = true →
       findGradInRoot (gradIdOf f) rc = some g →
       (deriveGradientPanel prev fill rc).enabled = true) := by
  refine ⟨?_, ?_, ?_, ?_⟩
  · intro hf
    cases fill with
    | none => rfl
    | some f =>
        have hf0 : f = "" := by simpa [truthy] using hf
        subst hf0
        simp [deriveGradientPanel]
  · intro f hf hne hsw
    subst hf
    rw [deriveGradientPanel]
    rw [if_neg (by simp [hsw])]
  · intro f hf hne hsw hfind
    subst hf
    rw [deriveGradientPanel]
    rw [if_pos ⟨hne, hsw⟩]
    simp only [hfind]
  · intro f g hf hne hsw hfind
    subst hf
    rw [deriveGradientPanel]
    rw [if_pos ⟨hne, hsw⟩]
    simp only [hfind]

/-- C6 witness: the three reachable outcomes at concrete inputs: a plain
color fill disables the panel, an unresolved reference leaves the previous
state untouched, a resolved reference enables the panel. -/
theorem gradient_panel_derivation_witness :
    deriveGradientPanel panelE (some "red") [.defsC []]
        = { panelE with enabled := false } ∧
    deriveGradientPanel panelE (some "url(#ghost)") [.other 7] = panelE ∧
    (deriveGradientPanel panelE (some "url(#abc)")
        [.defsC [{ gid := "abc", tag := "linearGradient",
                   stops := [("0%", "#000000")] }]]).enabled = true :=
  ⟨(gradient_panel_derivation panelE (some "red") [.defsC []]).2.1
      "red" rfl (by decide) (by decide),
   (gradient_panel_derivation panelE (some "url(#ghost)") [.other 7]).2.2.1
      "url(#ghost)" rfl (by decide) (by decide) (by decide),
   (gradient_panel_derivation panelE (some "url(#abc)")
        [.defsC [{ gid := "abc", tag := "linearGradient",
                   stops := [("0%", "#000000")] }]]).2.2.2
      "url(#abc)"
      { gid := "abc", tag := "linearGradient", stops := [("0%", "#000000")] }
      rfl (by decide) (by decide) (by decide)⟩

/-- C6 counterexample: with the panel previously enabled, selecting an
element whose fill references a paint-server id that resolves nowhere
leaves the panel enabled and identical to its previous state, where the
claim says it is marked disabled. -/
theorem gradient_panel_unresolved_counterexample :
    deriveGradientPanel panelE (some "url(#ghost)") [.defsC []] = panelE ∧
    (deriveGradientPanel panelE (some "url(#ghost)") [.defsC []]).enabled ≠ false := by
  refine ⟨by decide, by decide⟩

end VectorStudio
